import Mathlib

/-!
Verification development for the Park-Pulse wait-time snapshot store and
ranking engine.

The TypeScript source is shallowly embedded as executable Lean definitions:

* `src/lib/types.ts`          → the entity model (`Ride`, `ParkLiveData`, …);
  ISO timestamp strings are modelled by their parsed value: a snapshot
  timestamp becomes its epoch-milliseconds value (`Nat`), and a forecast
  point's `time` string becomes the local calendar date it parses to
  (`Option Nat`, `none` when `new Date(s)` yields an invalid date).
* `src/lib/sorting.ts`        → `getHighOfDay`, `sortRides`; the external
  classifier `lib/parks` (`getLand`, `getTicketClass`) and the ambient
  current date are passed in a `SortCtx`.  JavaScript's stable
  `Array.prototype.sort` is modelled by a stable insertion sort driven by
  the source's three-way comparator.
* `src/components/Dashboard.tsx` (second, current revision) → the inline
  ride sort with its extra `favorite` key, and both revisions'
  `averageWaitTime` aggregates.
* `src/lib/data-service.ts`   → `getWaitTimes`: the dedup / trim / persist
  logic.  The durable medium and its failure modes are explicit inputs:
  `readOk = false` models an unreadable or corrupt store (the `catch`
  around `readFile`/`JSON.parse`), `writeOk = false` a failing
  `writeFile` (the `catch` around the save, which runs after the
  in-memory history was already updated).  Upstream park fetches are
  modelled as `Except` values; `Promise.all` fails as soon as one does.
* `src/app/api/wait-times/route.ts` → `routeGET`.
-/

namespace ParkPulse

/-! ## Entity model (`src/lib/types.ts`) -/

/-- `Queue.STANDBY` from `types.ts`: the standby queue entry. -/
structure StandbyQueue where
  waitTime : Int
deriving DecidableEq

/-- `Queue` from `types.ts`.  Only the `STANDBY` member carries data the
core reads; the other optional members never influence the embedded
logic and are omitted. -/
structure Queue where
  STANDBY : Option StandbyQueue
deriving DecidableEq

/-- `Forecast` from `types.ts`.  The ISO `time` string is modelled by the
local calendar date `new Date(time).toDateString()` denotes: `none` when
the string parses to an invalid date (an invalid date never equals the
current date string). -/
structure Forecast where
  time : Option Nat
  waitTime : Int
  percentage : Int
deriving DecidableEq

/-- `Ride.status` union from `types.ts`. -/
inductive Status where
  | OPERATING
  | CLOSED
  | DOWN
  | REFURBISHMENT
deriving DecidableEq

/-- `Ride.entityType` union from `types.ts`. -/
inductive EntityType where
  | ATTRACTION
  | SHOW
  | RESTAURANT
deriving DecidableEq

/-- `Ride` from `types.ts`.  `operatingHours`/`showtimes` are
display-only and never read by the embedded logic, so they are omitted. -/
structure Ride where
  id : String
  name : String
  entityType : EntityType
  parkId : String
  externalId : String
  status : Status
  lastUpdated : String
  queue : Option Queue
  forecast : Option (List Forecast)
deriving DecidableEq

/-- `ParkLiveData` from `types.ts`. -/
structure ParkLiveData where
  id : String
  name : String
  liveData : List Ride
deriving DecidableEq

/-- `WaitTimeSnapshot` from `types.ts`; the ISO `timestamp` string is
modelled by its `new Date(timestamp).getTime()` value in milliseconds. -/
structure WaitTimeSnapshot where
  timestamp : Nat
  parks : List ParkLiveData
deriving DecidableEq

/-- `r.queue?.STANDBY?.waitTime`: optional chaining through queue and
standby. -/
def standbyWaitTime (r : Ride) : Option Int :=
  (r.queue.bind (·.STANDBY)).map (·.waitTime)

/-! ## Rank and sort engine (`src/lib/sorting.ts`) -/

/-- `getHighOfDay` from `sorting.ts`: 0 without a forecast; otherwise the
maximum `waitTime` over the forecast points whose parsed calendar date
equals `today` (`new Date().toDateString()`), and 0 when no point
qualifies.  `Math.max(...)` over the non-empty filtered list is the left
fold of `max`. -/
def getHighOfDay (today : Nat) (ride : Ride) : Int :=
  match ride.forecast with
  | none => 0
  | some fs =>
    match (fs.filter (fun f => f.time == some today)).map (fun f => f.waitTime) with
    | [] => 0
    | w :: ws => ws.foldl max w

/-- `SortField` from `RideTable.tsx` (imported by `sorting.ts`). -/
inductive SortField where
  | name
  | waitTime
  | land
  | status
  | ticket
  | peak
  | favorite
deriving DecidableEq

/-- `SortDirection` from `RideTable.tsx`. -/
inductive SortDirection where
  | asc
  | desc
deriving DecidableEq

/-- Value of a sort key: the comparator's `valA`/`valB` are either
numbers or strings depending on the selected field. -/
inductive SVal where
  | num (n : Int)
  | str (s : String)
deriving DecidableEq

/-- JavaScript `<` restricted to same-typed operands; a given sort field
always projects both operands to the same variant, so the mixed cases
never arise in a comparison the code performs. -/
def SVal.lt : SVal → SVal → Prop
  | .num a, .num b => a < b
  | .str a, .str b => a < b
  | _, _ => False

instance SVal.decLt : (a b : SVal) → Decidable (SVal.lt a b)
  | .num a, .num b => inferInstanceAs (Decidable (a < b))
  | .str a, .str b => inferInstanceAs (Decidable (a < b))
  | .num _, .str _ => isFalse (fun h => h)
  | .str _, .num _ => isFalse (fun h => h)

/-- `SVal.isNum` records which variant a value is; each sort field
projects every ride to the same variant. -/
def SVal.isNum : SVal → Bool
  | .num _ => true
  | .str _ => false

/-- The three-way comparator body shared by `sortRides` and the
`Dashboard` inline sort: `valA < valB` gives `-1` ascending / `1`
descending, `valA > valB` the opposite, equal values give `0`. -/
def jsCompare (dir : SortDirection) (vA vB : SVal) : Int :=
  if vA.lt vB then (if dir = .asc then -1 else 1)
  else if vB.lt vA then (if dir = .asc then 1 else -1)
  else 0

/-- Stable insertion of `x` into `l`: `x` goes before the first element
`y` with `le x y`.  Used to model JavaScript's stable
`Array.prototype.sort`. -/
def insertLe (le : α → α → Bool) (x : α) : List α → List α
  | [] => [x]
  | y :: ys => if le x y then x :: y :: ys else y :: insertLe le x ys

/-- Stable sort by the boolean relation `le` (insertion sort).  With
`le a b = (comparator a b ≤ 0)` this produces exactly the output
mandated for JavaScript's stable `Array.prototype.sort` under a
consistent comparator. -/
def jsSortBy (le : α → α → Bool) : List α → List α
  | [] => []
  | x :: xs => insertLe le x (jsSortBy le xs)

/-- External collaborators of the sort: the static name→zone and
name→ticket-class classifiers from `lib/parks`, and the ambient current
calendar date (`new Date().toDateString()`). -/
structure SortCtx where
  getLand : String → String
  getTicketClass : String → String
  today : Nat

/-- The raw status string the `status` sort key compares. -/
def statusString : Status → String
  | .OPERATING => "OPERATING"
  | .CLOSED => "CLOSED"
  | .DOWN => "DOWN"
  | .REFURBISHMENT => "REFURBISHMENT"

/-- The `ticket` key's `score`: `{E:5, D:4, C:3, B:2, A:1}[t] || 0`. -/
def ticketScore (ctx : SortCtx) (r : Ride) : Int :=
  match ctx.getTicketClass r.name with
  | "E" => 5
  | "D" => 4
  | "C" => 3
  | "B" => 2
  | "A" => 1
  | _ => 0

/-- The `switch (sortField)` of `sortRides` in `sorting.ts`: the value
`valA` computed for a ride.  The declared `SortField` union includes
`favorite`, but the switch has no case for it, so both values keep their
initializer `''`. -/
def fieldVal (ctx : SortCtx) (f : SortField) (r : Ride) : SVal :=
  match f with
  | .name => .str r.name
  | .waitTime => .num (if r.status = .OPERATING then (standbyWaitTime r).getD 0 else -1)
  | .land => .str (ctx.getLand r.name)
  | .status => .str (statusString r.status)
  | .ticket => .num (ticketScore ctx r)
  | .peak => .num (getHighOfDay ctx.today r)
  | .favorite => .str ""

/-- `sortRides` from `sorting.ts`: a stable sort of a copy of `rides` by
the three-way comparator over the selected field. -/
def sortRides (ctx : SortCtx) (rides : List Ride) (f : SortField) (dir : SortDirection) :
    List Ride :=
  jsSortBy (fun a b => decide (jsCompare dir (fieldVal ctx f a) (fieldVal ctx f b) ≤ 0)) rides

/-- The `switch (sortField)` of the inline sort in `Dashboard.tsx`
(current revision, the `rides` memo): identical to `sortRides`' switch
plus the `favorite` case, `favorites.includes(id) ? 1 : 0`. -/
def fieldValDash (ctx : SortCtx) (favorites : List String) (f : SortField) (r : Ride) : SVal :=
  match f with
  | .favorite => .num (if favorites.contains r.id then 1 else 0)
  | _ => fieldVal ctx f r

/-- The inline `filtered.sort(...)` of `Dashboard.tsx` (current
revision). -/
def sortRidesDash (ctx : SortCtx) (favorites : List String) (rides : List Ride)
    (f : SortField) (dir : SortDirection) : List Ride :=
  jsSortBy
    (fun a b =>
      decide (jsCompare dir (fieldValDash ctx favorites f a) (fieldValDash ctx favorites f b) ≤ 0))
    rides

/-! ## Dashboard aggregates (`src/components/Dashboard.tsx`) -/

/-- `Math.round(total / count)` for an integer `total` and a positive
integer `count`: JavaScript rounds half toward positive infinity, which
is the floor of `total / count + 1 / 2`. -/
def jsRound (total : Int) (count : Nat) : Int :=
  (2 * total + count).fdiv (2 * count)

/-- `averageWaitTime` from the first `Dashboard.tsx` revision: mean over
the rides that are `OPERATING` and have a defined standby `waitTime`
(`r.queue?.STANDBY?.waitTime !== undefined`), summed via
`(r.queue?.STANDBY?.waitTime || 0)`, rounded; 0 when the ride list or
the eligible list is empty. -/
def averageWaitTime (rides : List Ride) : Int :=
  if rides.length = 0 then 0
  else
    let operatingRides := rides.filter
      (fun r => decide (r.status = .OPERATING) && (standbyWaitTime r).isSome)
    if operatingRides.length = 0 then 0
    else
      jsRound ((operatingRides.map (fun r => (standbyWaitTime r).getD 0)).sum)
        operatingRides.length

/-- `averageWaitTime` from the second (current) `Dashboard.tsx`
revision: mean over all `OPERATING` rides, an undefined standby wait
contributing `0` via `(ride.queue?.STANDBY?.waitTime || 0)`. -/
def averageWaitTimeDash (rides : List Ride) : Int :=
  if rides.length = 0 then 0
  else
    let operatingRides := rides.filter (fun r => decide (r.status = .OPERATING))
    if operatingRides.length = 0 then 0
    else
      jsRound ((operatingRides.map (fun r => (standbyWaitTime r).getD 0)).sum)
        operatingRides.length

/-- Modelled from the spec (refinement comparison only): `averageWait(rides)`
= round of the mean of `waitTime` over the rides with `status == OPERATING`
and a defined standby wait, and 0 if no such ride exists. -/
def averageWaitSpec (rides : List Ride) : Int :=
  let eligible := rides.filter
    (fun r => decide (r.status = .OPERATING) && (standbyWaitTime r).isSome)
  if eligible.length = 0 then 0
  else jsRound ((eligible.map (fun r => (standbyWaitTime r).getD 0)).sum) eligible.length

/-! ## Snapshot store and refresh cycle (`src/lib/data-service.ts`) -/

/-- `history[history.length - 1]` and
`lastSnapshot ? new Date(lastSnapshot.timestamp).getTime() : 0`. -/
def lastTimestamp (history : List WaitTimeSnapshot) : Nat :=
  match history.getLast? with
  | some s => s.timestamp
  | none => 0

/-- The dedup guard `currentTime - lastTime > 60 * 1000` ("only save
every minute"); JavaScript number subtraction is exact integer
subtraction here. -/
def shouldPersist (history : List WaitTimeSnapshot) (t : Nat) : Bool :=
  decide ((t : Int) - lastTimestamp history > 60 * 1000)

/-- The retention cap: `if (history.length > 2000) history =
history.slice(-2000)` keeps the newest 2000 entries. -/
def trimHistory (h : List WaitTimeSnapshot) : List WaitTimeSnapshot :=
  if h.length > 2000 then h.drop (h.length - 2000) else h

/-- One append step on the in-memory history: push the snapshot and trim
when the dedup guard passes, otherwise leave the history unchanged. -/
def appendSnapshot (history : List WaitTimeSnapshot) (s : WaitTimeSnapshot) :
    List WaitTimeSnapshot :=
  if shouldPersist history s.timestamp then trimHistory (history ++ [s]) else history

/-- The `{current, history}` record `getWaitTimes` returns. -/
structure WaitTimesResult where
  current : WaitTimeSnapshot
  history : List WaitTimeSnapshot
deriving DecidableEq

/-- Steps 2–3 of `getWaitTimes` plus the return: read the persisted
history (a failed or unparseable read, `readOk = false`, falls into the
`catch` and starts a new empty history), run the dedup/trim/save block,
and return `{current, history}` together with the durable store's
resulting content.  A failing `writeFile` (`writeOk = false`) is caught
after the in-memory `history` was already pushed and trimmed, so the
returned history reflects the append while the durable content stays
what it was. -/
def getWaitTimesStore (store : List WaitTimeSnapshot) (readOk writeOk : Bool)
    (current : WaitTimeSnapshot) : WaitTimesResult × List WaitTimeSnapshot :=
  let history := if readOk then store else []
  if shouldPersist history current.timestamp then
    let newHistory := trimHistory (history ++ [current])
    (⟨current, newHistory⟩, if writeOk then newHistory else store)
  else
    (⟨current, history⟩, store)

/-- `getWaitTimes` from `data-service.ts`: `Promise.all` of the two park
fetches — the whole cycle rejects with the first failure and nothing
after step 1 runs — then the snapshot is built from the two parks and
handed to the store logic. -/
def getWaitTimes (fetchDisneyland fetchDCA : Except String ParkLiveData)
    (store : List WaitTimeSnapshot) (readOk writeOk : Bool) (t : Nat) :
    Except String WaitTimesResult × List WaitTimeSnapshot :=
  match fetchDisneyland, fetchDCA with
  | .ok d1, .ok d2 =>
    let r := getWaitTimesStore store readOk writeOk ⟨t, [d1, d2]⟩
    (.ok r.1, r.2)
  | .error e, _ => (.error e, store)
  | _, .error e => (.error e, store)

/-- `GET` from `route.ts`: 200 with the data on success, 500 with an
error body when `getWaitTimes` threw. -/
def routeGET (r : Except String WaitTimesResult) : Nat × Option WaitTimesResult :=
  match r with
  | .ok d => (200, some d)
  | .error _ => (500, none)

/-! ## Helper lemmas: the stable sort -/

theorem insertLe_perm (le : α → α → Bool) (x : α) (l : List α) :
    List.Perm (insertLe le x l) (x :: l) := by
  induction l with
  | nil => exact List.Perm.refl _
  | cons y ys ih =>
    unfold insertLe
    by_cases h : le x y = true
    · rw [if_pos h]
    · rw [if_neg h]
      exact (ih.cons y).trans (List.Perm.swap x y ys)

theorem jsSortBy_perm (le : α → α → Bool) (l : List α) : List.Perm (jsSortBy le l) l := by
  induction l with
  | nil => exact List.Perm.refl _
  | cons x xs ih => exact (insertLe_perm le x (jsSortBy le xs)).trans (ih.cons x)

theorem mem_insertLe (le : α → α → Bool) (x z : α) (l : List α) :
    z ∈ insertLe le x l ↔ z = x ∨ z ∈ l := by
  rw [(insertLe_perm le x l).mem_iff, List.mem_cons]

theorem insertLe_pairwise (le : α → α → Bool)
    (htot : ∀ a b, le a b = true ∨ le b a = true)
    (htrans : ∀ a b c, le a b = true → le b c = true → le a c = true)
    (x : α) {l : List α} (hl : l.Pairwise (fun a b => le a b = true)) :
    (insertLe le x l).Pairwise (fun a b => le a b = true) := by
  induction l with
  | nil => simp [insertLe]
  | cons y ys ih =>
    rw [List.pairwise_cons] at hl
    obtain ⟨hy, hys⟩ := hl
    unfold insertLe
    by_cases h : le x y = true
    · rw [if_pos h]
      refine List.Pairwise.cons ?_ (List.Pairwise.cons hy hys)
      intro z hz
      rcases List.mem_cons.mp hz with hz | hz
      · exact hz ▸ h
      · exact htrans x y z h (hy z hz)
    · rw [if_neg h]
      refine List.Pairwise.cons ?_ (ih hys)
      intro z hz
      rcases (mem_insertLe le x z ys).mp hz with hz | hz
      · rw [hz]
        rcases htot x y with h' | h'
        · exact absurd h' h
        · exact h'
      · exact hy z hz

theorem jsSortBy_pairwise (le : α → α → Bool)
    (htot : ∀ a b, le a b = true ∨ le b a = true)
    (htrans : ∀ a b c, le a b = true → le b c = true → le a c = true)
    (l : List α) : (jsSortBy le l).Pairwise (fun a b => le a b = true) := by
  induction l with
  | nil => simp [jsSortBy]
  | cons x xs ih => exact insertLe_pairwise le htot htrans x ih

theorem insertLe_filter (le : α → α → Bool) (p : α → Bool) (x : α) (l : List α)
    (hx : ∀ y, p x = true → p y = true → le x y = true) :
    (insertLe le x l).filter p = (x :: l).filter p := by
  induction l with
  | nil => simp [insertLe]
  | cons y ys ih =>
    unfold insertLe
    by_cases h : le x y = true
    · rw [if_pos h]
    · rw [if_neg h]
      by_cases hpx : p x = true
      · have hpy : p y = false := by
          cases hy : p y
          · rfl
          · exact absurd (hx y hpx hy) h
        simp only [List.filter_cons, hpy, hpx, ih]
        simp [hpy]
      · have hpx' : p x = false := by
          cases h' : p x
          · rfl
          · exact absurd h' hpx
        simp only [List.filter_cons, hpx', ih]
        simp [hpx']

theorem jsSortBy_filter (le : α → α → Bool) (p : α → Bool)
    (hp : ∀ a b, p a = true → p b = true → le a b = true) (l : List α) :
    (jsSortBy le l).filter p = l.filter p := by
  induction l with
  | nil => rfl
  | cons x xs ih =>
    calc (insertLe le x (jsSortBy le xs)).filter p
        = (x :: jsSortBy le xs).filter p := insertLe_filter le p x _ (fun y => hp x y)
      _ = (x :: xs).filter p := by
          simp only [List.filter_cons, ih]

/-! ## Helper lemmas: sort-key values and the comparator -/

theorem SVal.lt_asymm : ∀ {v w : SVal}, SVal.lt v w → ¬ SVal.lt w v
  | .num _, .num _, h => by simp only [SVal.lt] at *; omega
  | .str _, .str _, h => by
      simp only [SVal.lt] at *
      exact not_lt.mpr (le_of_lt h)
  | .num _, .str _, h => h.elim
  | .str _, .num _, h => h.elim

theorem SVal.lt_irrefl (v : SVal) : ¬ SVal.lt v v := fun h => SVal.lt_asymm h h

theorem SVal.not_lt_trans : ∀ {a b c : SVal}, a.isNum = b.isNum → b.isNum = c.isNum →
    ¬ SVal.lt b a → ¬ SVal.lt c b → ¬ SVal.lt c a
  | .num _, .num _, .num _, _, _, h1, h2 => by simp only [SVal.lt] at *; omega
  | .str _, .str _, .str _, _, _, h1, h2 => by
      simp only [SVal.lt] at *
      exact not_lt.mpr (le_trans (not_lt.mp h1) (not_lt.mp h2))
  | .num _, .num _, .str _, _, hbc, _, _ => by simp [SVal.isNum] at hbc
  | .num _, .str _, _, hab, _, _, _ => by simp [SVal.isNum] at hab
  | .str _, .num _, _, hab, _, _, _ => by simp [SVal.isNum] at hab
  | .str _, .str _, .num _, _, hbc, _, _ => by simp [SVal.isNum] at hbc

theorem jsCompare_nonpos_asc (vA vB : SVal) :
    jsCompare .asc vA vB ≤ 0 ↔ ¬ SVal.lt vB vA := by
  unfold jsCompare
  by_cases h1 : SVal.lt vA vB
  · have h2 : ¬ SVal.lt vB vA := SVal.lt_asymm h1
    norm_num [h1, h2]
  · by_cases h2 : SVal.lt vB vA
    · norm_num [h1, h2]
    · norm_num [h1, h2]

theorem jsCompare_nonpos_desc (vA vB : SVal) :
    jsCompare .desc vA vB ≤ 0 ↔ ¬ SVal.lt vA vB := by
  unfold jsCompare
  by_cases h1 : SVal.lt vA vB
  · norm_num [h1]
    decide
  · by_cases h2 : SVal.lt vB vA
    · norm_num [h1, h2]
      decide
    · norm_num [h1, h2]

theorem jsCompare_self_nonpos (dir : SortDirection) (v : SVal) : jsCompare dir v v ≤ 0 := by
  cases dir
  · exact (jsCompare_nonpos_asc v v).mpr (SVal.lt_irrefl v)
  · exact (jsCompare_nonpos_desc v v).mpr (SVal.lt_irrefl v)

theorem jsCompare_total (dir : SortDirection) (vA vB : SVal) :
    jsCompare dir vA vB ≤ 0 ∨ jsCompare dir vB vA ≤ 0 := by
  cases dir
  · rw [jsCompare_nonpos_asc, jsCompare_nonpos_asc]
    by_cases h : SVal.lt vB vA
    · exact Or.inr (SVal.lt_asymm h)
    · exact Or.inl h
  · rw [jsCompare_nonpos_desc, jsCompare_nonpos_desc]
    by_cases h : SVal.lt vA vB
    · exact Or.inr (SVal.lt_asymm h)
    · exact Or.inl h

theorem jsCompare_trans (dir : SortDirection) {a b c : SVal}
    (hab : a.isNum = b.isNum) (hbc : b.isNum = c.isNum) :
    jsCompare dir a b ≤ 0 → jsCompare dir b c ≤ 0 → jsCompare dir a c ≤ 0 := by
  cases dir
  · rw [jsCompare_nonpos_asc, jsCompare_nonpos_asc, jsCompare_nonpos_asc]
    intro h1 h2
    exact SVal.not_lt_trans hab hbc h1 h2
  · rw [jsCompare_nonpos_desc, jsCompare_nonpos_desc, jsCompare_nonpos_desc]
    intro h1 h2
    exact SVal.not_lt_trans hbc.symm hab.symm h2 h1

theorem fieldVal_isNum_eq (ctx : SortCtx) (f : SortField) (a b : Ride) :
    (fieldVal ctx f a).isNum = (fieldVal ctx f b).isNum := by
  cases f <;> rfl

theorem fieldValDash_isNum_eq (ctx : SortCtx) (favorites : List String) (f : SortField)
    (a b : Ride) :
    (fieldValDash ctx favorites f a).isNum = (fieldValDash ctx favorites f b).isNum := by
  cases f <;> rfl

theorem sortLe_total (ctx : SortCtx) (f : SortField) (dir : SortDirection) (a b : Ride) :
    decide (jsCompare dir (fieldVal ctx f a) (fieldVal ctx f b) ≤ 0) = true ∨
      decide (jsCompare dir (fieldVal ctx f b) (fieldVal ctx f a) ≤ 0) = true := by
  rcases jsCompare_total dir (fieldVal ctx f a) (fieldVal ctx f b) with h | h
  · exact Or.inl (decide_eq_true h)
  · exact Or.inr (decide_eq_true h)

theorem sortLe_trans (ctx : SortCtx) (f : SortField) (dir : SortDirection) (a b c : Ride) :
    decide (jsCompare dir (fieldVal ctx f a) (fieldVal ctx f b) ≤ 0) = true →
    decide (jsCompare dir (fieldVal ctx f b) (fieldVal ctx f c) ≤ 0) = true →
    decide (jsCompare dir (fieldVal ctx f a) (fieldVal ctx f c) ≤ 0) = true := by
  intro h1 h2
  exact decide_eq_true (jsCompare_trans dir (fieldVal_isNum_eq ctx f a b)
    (fieldVal_isNum_eq ctx f b c) (of_decide_eq_true h1) (of_decide_eq_true h2))

theorem sortRides_sorted_get (ctx : SortCtx) (rides : List Ride) (f : SortField)
    (dir : SortDirection) (i j : Nat) (hi : i < (sortRides ctx rides f dir).length)
    (hj : j < (sortRides ctx rides f dir).length) (hij : i < j) :
    jsCompare dir (fieldVal ctx f ((sortRides ctx rides f dir).get ⟨i, hi⟩))
      (fieldVal ctx f ((sortRides ctx rides f dir).get ⟨j, hj⟩)) ≤ 0 := by
  have hp := jsSortBy_pairwise
    (fun a b => decide (jsCompare dir (fieldVal ctx f a) (fieldVal ctx f b) ≤ 0))
    (sortLe_total ctx f dir) (sortLe_trans ctx f dir) rides
  rw [List.pairwise_iff_getElem] at hp
  have h := hp i j hi hj hij
  simpa using of_decide_eq_true h

/-! ## Helper lemmas: folded maxima -/

theorem le_foldl_max (ws : List Int) (w : Int) : w ≤ ws.foldl max w := by
  induction ws generalizing w with
  | nil => exact le_refl w
  | cons v ws ih => exact le_trans (le_max_left w v) (ih (max w v))

theorem mem_le_foldl_max (ws : List Int) (w : Int) : ∀ v ∈ ws, v ≤ ws.foldl max w := by
  induction ws generalizing w with
  | nil => intro v hv; cases hv
  | cons u ws ih =>
    intro v hv
    rcases List.mem_cons.mp hv with hv | hv
    · subst hv
      exact le_trans (le_max_right w v) (le_foldl_max ws (max w v))
    · exact ih (max w u) v hv

theorem foldl_max_mem (ws : List Int) (w : Int) :
    ws.foldl max w = w ∨ ws.foldl max w ∈ ws := by
  induction ws generalizing w with
  | nil => exact Or.inl rfl
  | cons v ws ih =>
    rcases ih (max w v) with h | h
    · rcases max_choice w v with hm | hm
      · exact Or.inl (by rw [List.foldl_cons, h, hm])
      · exact Or.inr (by rw [List.foldl_cons, h, hm]; exact List.mem_cons_self v ws)
    · exact Or.inr (List.mem_cons_of_mem v h)

/-! ## Helper lemmas: trim and append -/

theorem trimHistory_length (l : List WaitTimeSnapshot) :
    (trimHistory l).length = min l.length 2000 := by
  unfold trimHistory
  by_cases h : l.length > 2000
  · rw [if_pos h, List.length_drop]
    omega
  · rw [if_neg h]
    omega

theorem appendSnapshot_persist_eq (h : List WaitTimeSnapshot) (s : WaitTimeSnapshot)
    (hp : shouldPersist h s.timestamp = true) :
    ∃ k, k ≤ h.length ∧ appendSnapshot h s = h.drop k ++ [s] ∧
      (appendSnapshot h s).length = min (h.length + 1) 2000 := by
  have hlen : (h ++ [s]).length = h.length + 1 := by simp
  unfold appendSnapshot
  rw [if_pos hp]
  unfold trimHistory
  by_cases hc : (h ++ [s]).length > 2000
  · rw [if_pos hc]
    refine ⟨(h ++ [s]).length - 2000, by omega, ?_, ?_⟩
    · rw [List.drop_append_of_le_length (by omega)]
    · rw [List.length_drop]
      omega
  · rw [if_neg hc]
    exact ⟨0, Nat.zero_le _, by simp, by simp; omega⟩

theorem lastTimestamp_concat (l : List WaitTimeSnapshot) (s : WaitTimeSnapshot) :
    lastTimestamp (l ++ [s]) = s.timestamp := by
  unfold lastTimestamp
  rw [List.getLast?_concat]

theorem appendSnapshot_length_le (h : List WaitTimeSnapshot) (s : WaitTimeSnapshot)
    (hcap : h.length ≤ 2000) : (appendSnapshot h s).length ≤ 2000 := by
  unfold appendSnapshot
  by_cases hp : shouldPersist h s.timestamp = true
  · rw [if_pos hp, trimHistory_length]
    omega
  · rw [if_neg hp]
    exact hcap

/-! ## Concrete fixtures

`alice`, `bob`, `charlie` are the mock rides of the repository's
`sortRides` unit test and of the spec's scenarios; `delta` is an
OPERATING ride with no queue data; `epsilon` carries a forecast with
points on two calendar dates plus a malformed timestamp. -/

/-- A context with trivial classifiers; the waitTime key reads neither. -/
def ctx0 : SortCtx := ⟨fun _ => "", fun _ => "", 0⟩

def alice : Ride :=
  ⟨"1", "Alice", .ATTRACTION, "1", "1", .OPERATING, "", some ⟨some ⟨10⟩⟩, none⟩

def bob : Ride :=
  ⟨"2", "Bob", .ATTRACTION, "1", "2", .OPERATING, "", some ⟨some ⟨30⟩⟩, none⟩

def charlie : Ride :=
  ⟨"3", "Charlie", .ATTRACTION, "1", "3", .CLOSED, "", none, none⟩

def delta : Ride :=
  ⟨"4", "Delta", .ATTRACTION, "1", "4", .OPERATING, "", none, none⟩

def epsForecast : List Forecast :=
  [⟨some 7, 20, 40⟩, ⟨some 8, 99, 90⟩, ⟨some 7, 40, 80⟩, ⟨none, 1000, 0⟩]

def epsilon : Ride :=
  ⟨"5", "Epsilon", .ATTRACTION, "1", "5", .OPERATING, "", some ⟨some ⟨15⟩⟩, some epsForecast⟩

theorem getHighOfDay_some (today : Nat) (fs : List Forecast) (r : Ride)
    (h : r.forecast = some fs) :
    getHighOfDay today r =
      match (fs.filter (fun f => f.time == some today)).map (fun f => f.waitTime) with
      | [] => 0
      | w :: ws => ws.foldl max w := by
  unfold getHighOfDay
  rw [h]

theorem appendSnapshot_noPersist (h : List WaitTimeSnapshot) (s : WaitTimeSnapshot)
    (hq : shouldPersist h s.timestamp = false) : appendSnapshot h s = h := by
  simp [appendSnapshot, hq]

/-! ## Claims -/

/-- C3: `rank(rides, 'waitTime', 'asc')` places every ride whose status is
not OPERATING before every OPERATING ride with a non-negative standby
wait; the waitTime key projects an OPERATING ride to its standby wait and
any other ride to -1; on the Alice/Bob/Charlie scenario the ascending
order is [Charlie, Alice, Bob] and the descending order is
[Bob, Alice, Charlie]. -/
theorem rank_waitTime_places_nonoperating_first (ctx : SortCtx) (rides : List Ride)
    (i j : Nat) (hi : i < (sortRides ctx rides .waitTime .asc).length)
    (hj : j < (sortRides ctx rides .waitTime .asc).length)
    (hop : ((sortRides ctx rides .waitTime .asc).get ⟨i, hi⟩).status = .OPERATING)
    (w : Int)
    (hw : standbyWaitTime ((sortRides ctx rides .waitTime .asc).get ⟨i, hi⟩) = some w)
    (hwnn : 0 ≤ w)
    (hnop : ((sortRides ctx rides .waitTime .asc).get ⟨j, hj⟩).status ≠ .OPERATING) :
    j < i
    ∧ (∀ (r : Ride) (v : Int), r.status = .OPERATING → standbyWaitTime r = some v →
        fieldVal ctx .waitTime r = .num v)
    ∧ (∀ r : Ride, r.status ≠ .OPERATING → fieldVal ctx .waitTime r = .num (-1))
    ∧ sortRides ctx0 [alice, bob, charlie] .waitTime .asc = [charlie, alice, bob]
    ∧ sortRides ctx0 [alice, bob, charlie] .waitTime .desc = [bob, alice, charlie] := by
  refine ⟨?_, ?_, ?_, by decide, by decide⟩
  · rcases Nat.lt_trichotomy i j with hlt | heq | hgt
    · exfalso
      have hs := sortRides_sorted_get ctx rides .waitTime .asc i j hi hj hlt
      rw [jsCompare_nonpos_asc] at hs
      have hv1 : fieldVal ctx .waitTime ((sortRides ctx rides .waitTime .asc).get ⟨i, hi⟩)
          = .num w := by
        simp only [List.get_eq_getElem] at hop hw
        simp [fieldVal, hop, hw]
      have hv2 : fieldVal ctx .waitTime ((sortRides ctx rides .waitTime .asc).get ⟨j, hj⟩)
          = .num (-1) := by
        simp only [List.get_eq_getElem] at hnop
        simp [fieldVal, hnop]
      rw [hv1, hv2] at hs
      simp only [SVal.lt] at hs
      omega
    · exfalso
      subst heq
      exact hnop hop
    · exact hgt
  · intro r v hr hv
    simp [fieldVal, hr, hv]
  · intro r hr
    simp [fieldVal, hr]

/-- Witness for C3 at the concrete scenario: in the ascending output
[Charlie, Alice, Bob], OPERATING Alice (index 1, wait 10) sits after
non-OPERATING Charlie (index 0). -/
theorem rank_waitTime_places_nonoperating_first_witness :
    (0 : Nat) < 1
    ∧ sortRides ctx0 [alice, bob, charlie] .waitTime .asc = [charlie, alice, bob]
    ∧ sortRides ctx0 [alice, bob, charlie] .waitTime .desc = [bob, alice, charlie] := by
  have h := rank_waitTime_places_nonoperating_first ctx0 [alice, bob, charlie] 1 0
    (by decide) (by decide) (by decide) 10 (by decide) (by decide) (by decide)
  exact ⟨h.1, h.2.2.2.1, h.2.2.2.2⟩

/-- C4: for every sort key and both directions, both the library sort and
the Dashboard inline sort are stable permutations: the output is a
permutation of the input, and the rides projecting to any fixed key
value appear in the output in exactly their input order. -/
theorem rank_stable (ctx : SortCtx) (favorites : List String) (f : SortField)
    (dir : SortDirection) (rides : List Ride) (k : SVal) :
    List.Perm (sortRides ctx rides f dir) rides
    ∧ (sortRides ctx rides f dir).filter (fun r => fieldVal ctx f r == k)
        = rides.filter (fun r => fieldVal ctx f r == k)
    ∧ List.Perm (sortRidesDash ctx favorites rides f dir) rides
    ∧ (sortRidesDash ctx favorites rides f dir).filter
          (fun r => fieldValDash ctx favorites f r == k)
        = rides.filter (fun r => fieldValDash ctx favorites f r == k) := by
  refine ⟨jsSortBy_perm _ rides, ?_, jsSortBy_perm _ rides, ?_⟩
  · apply jsSortBy_filter
    intro a b ha hb
    have ha' : fieldVal ctx f a = k := by simpa using ha
    have hb' : fieldVal ctx f b = k := by simpa using hb
    rw [ha', hb']
    exact decide_eq_true (jsCompare_self_nonpos dir k)
  · apply jsSortBy_filter
    intro a b ha hb
    have ha' : fieldValDash ctx favorites f a = k := by simpa using ha
    have hb' : fieldValDash ctx favorites f b = k := by simpa using hb
    rw [ha', hb']
    exact decide_eq_true (jsCompare_self_nonpos dir k)

/-- C10: an OPERATING ride with no queue or no standby entry gets
waitTime key 0 (`?? 0`), the same key as a genuine 0-minute wait, and in
ascending order it sorts after every non-OPERATING ride (whose key is
-1). -/
theorem waitKey_missing_standby_zero (ctx : SortCtx) (rides : List Ride) (r : Ride)
    (hop : r.status = .OPERATING) (hmiss : standbyWaitTime r = none) (i j : Nat)
    (hi : i < (sortRides ctx rides .waitTime .asc).length)
    (hj : j < (sortRides ctx rides .waitTime .asc).length)
    (hinop : ((sortRides ctx rides .waitTime .asc).get ⟨i, hi⟩).status ≠ .OPERATING)
    (hjop : ((sortRides ctx rides .waitTime .asc).get ⟨j, hj⟩).status = .OPERATING)
    (hjmiss : standbyWaitTime ((sortRides ctx rides .waitTime .asc).get ⟨j, hj⟩) = none) :
    fieldVal ctx .waitTime r = .num 0
    ∧ (∀ r2 : Ride, r2.status = .OPERATING → standbyWaitTime r2 = some 0 →
        fieldVal ctx .waitTime r2 = fieldVal ctx .waitTime r)
    ∧ i < j := by
  have hv : fieldVal ctx .waitTime r = .num 0 := by
    simp [fieldVal, hop, hmiss]
  refine ⟨hv, ?_, ?_⟩
  · intro r2 h2 h2w
    rw [hv]
    simp [fieldVal, h2, h2w]
  · rcases Nat.lt_trichotomy i j with hlt | heq | hgt
    · exact hlt
    · exfalso
      subst heq
      exact hinop hjop
    · exfalso
      have hs := sortRides_sorted_get ctx rides .waitTime .asc j i hj hi hgt
      rw [jsCompare_nonpos_asc] at hs
      have hv1 : fieldVal ctx .waitTime ((sortRides ctx rides .waitTime .asc).get ⟨j, hj⟩)
          = .num 0 := by
        simp only [List.get_eq_getElem] at hjop hjmiss
        simp [fieldVal, hjop, hjmiss]
      have hv2 : fieldVal ctx .waitTime ((sortRides ctx rides .waitTime .asc).get ⟨i, hi⟩)
          = .num (-1) := by
        simp only [List.get_eq_getElem] at hinop
        simp [fieldVal, hinop]
      rw [hv1, hv2] at hs
      simp only [SVal.lt] at hs
      omega

/-- Witness for C10: sorting [Delta (OPERATING, no queue), Charlie
(CLOSED)] ascending by waitTime yields [Charlie, Delta]: Delta's key is
0 and it lands after Charlie. -/
theorem waitKey_missing_standby_zero_witness :
    fieldVal ctx0 .waitTime delta = .num 0 ∧ (0 : Nat) < 1 := by
  have h := waitKey_missing_standby_zero ctx0 [delta, charlie] delta (by decide) (by decide)
    0 1 (by decide) (by decide) (by decide) (by decide) (by decide)
  exact ⟨h.1, h.2.2⟩

/-- C5: `dayPeak` is 0 without a forecast or without a point dated today
(whatever other days' points exist); otherwise it is the maximum
`waitTime` among today's points (an upper bound that is attained); and a
point with a malformed timestamp is excluded from the maximum instead of
making the computation fail. -/
theorem dayPeak_today_max (today : Nat) (r : Ride) (fs : List Forecast) (g : Forecast) :
    (r.forecast = none → getHighOfDay today r = 0)
    ∧ (r.forecast = some fs → fs.filter (fun f => f.time == some today) = [] →
        getHighOfDay today r = 0)
    ∧ (r.forecast = some fs → ∀ f ∈ fs.filter (fun f => f.time == some today),
        f.waitTime ≤ getHighOfDay today r)
    ∧ (r.forecast = some fs → fs.filter (fun f => f.time == some today) ≠ [] →
        getHighOfDay today r
          ∈ (fs.filter (fun f => f.time == some today)).map (fun f => f.waitTime))
    ∧ (g.time = none →
        getHighOfDay today { r with forecast := some (g :: fs) }
          = getHighOfDay today { r with forecast := some fs }) := by
  refine ⟨?_, ?_, ?_, ?_, ?_⟩
  · intro h
    simp [getHighOfDay, h]
  · intro h hfil
    simp [getHighOfDay, h, hfil]
  · intro h f hf
    rw [getHighOfDay_some today fs r h]
    have hmem : f.waitTime ∈ (fs.filter (fun f => f.time == some today)).map
        (fun f => f.waitTime) := List.mem_map_of_mem _ hf
    rcases hlist : (fs.filter (fun f => f.time == some today)).map (fun f => f.waitTime) with
      _ | ⟨w, ws⟩
    · rw [hlist] at hmem
      cases hmem
    · rw [hlist] at hmem
      rw [hlist]
      rcases List.mem_cons.mp hmem with hm | hm
      · rw [hm]
        exact le_foldl_max ws w
      · exact mem_le_foldl_max ws w _ hm
  · intro h hne
    rw [getHighOfDay_some today fs r h]
    rcases hlist : (fs.filter (fun f => f.time == some today)).map (fun f => f.waitTime) with
      _ | ⟨w, ws⟩
    · exact absurd (List.map_eq_nil_iff.mp hlist) hne
    · rw [hlist]
      show List.foldl max w ws ∈ w :: ws
      rcases foldl_max_mem ws w with hm | hm
      · rw [hm]
        exact List.mem_cons_self w ws
      · exact List.mem_cons_of_mem w hm
  · intro hg
    simp [getHighOfDay, hg]

/-- Witness for C5: Charlie has no forecast, so the peak is 0; Epsilon's
forecast has points on day 7 (waits 20 and 40), one on day 8 (wait 99)
and a malformed one (wait 1000): with `today = 7` the point with wait 40
bounds below, and prepending another malformed point changes nothing. -/
theorem dayPeak_today_max_witness :
    getHighOfDay 0 charlie = 0
    ∧ (40 : Int) ≤ getHighOfDay 7 epsilon
    ∧ getHighOfDay 7 { epsilon with forecast := some (⟨none, 77, 0⟩ :: epsForecast) }
        = getHighOfDay 7 { epsilon with forecast := some epsForecast } := by
  have h1 := dayPeak_today_max 0 charlie [] ⟨none, 0, 0⟩
  have h2 := dayPeak_today_max 7 epsilon epsForecast ⟨none, 77, 0⟩
  refine ⟨h1.1 rfl, ?_, h2.2.2.2.2 rfl⟩
  exact h2.2.2.1 rfl ⟨some 7, 40, 80⟩ (by decide)

/-- C1: a fresh snapshot is persisted exactly when the history is empty
or its timestamp exceeds the last persisted timestamp by strictly more
than 60 s (for any realizable current timestamp, i.e. one beyond the
first minute of the epoch — the code compares against `lastTime = 0` on
an empty history); a deduplicated snapshot is still returned as
`current`; and for a pair of appends the second lands within 60 s of a
persisted first one exactly the first survives, while a gap strictly
above 60 s keeps both. -/
theorem append_dedup (h : List WaitTimeSnapshot) (s s2 : WaitTimeSnapshot)
    (store : List WaitTimeSnapshot) (ro wo : Bool)
    (hval : 60 * 1000 < s.timestamp) :
    (shouldPersist h s.timestamp = true ↔
      h = [] ∨ lastTimestamp h + 60 * 1000 < s.timestamp)
    ∧ (getWaitTimesStore store ro wo s).1.current = s
    ∧ (shouldPersist h s.timestamp = false → appendSnapshot h s = h)
    ∧ (shouldPersist h s.timestamp = true →
        s2.timestamp ≤ s.timestamp + 60 * 1000 →
        appendSnapshot (appendSnapshot h s) s2 = appendSnapshot h s)
    ∧ (shouldPersist h s.timestamp = true →
        s.timestamp + 60 * 1000 < s2.timestamp →
        s ∈ appendSnapshot (appendSnapshot h s) s2 ∧
          s2 ∈ appendSnapshot (appendSnapshot h s) s2) := by
  refine ⟨?_, ?_, ?_, ?_, ?_⟩
  · unfold shouldPersist
    rw [decide_eq_true_eq]
    constructor
    · intro hd
      right
      omega
    · rintro (hd | hd)
      · subst hd
        show (s.timestamp : Int) - lastTimestamp ([] : List WaitTimeSnapshot) > 60 * 1000
        unfold lastTimestamp
        simp only [List.getLast?_nil]
        omega
      · omega
  · unfold getWaitTimesStore
    by_cases hq : shouldPersist (if ro then store else []) s.timestamp = true
    · simp only [hq, if_true]
    · simp only [hq, if_false, Bool.false_eq_true]
  · intro hq
    exact appendSnapshot_noPersist h s hq
  · intro hp hclose
    obtain ⟨k, hk, heq, _⟩ := appendSnapshot_persist_eq h s hp
    have hlast : lastTimestamp (appendSnapshot h s) = s.timestamp := by
      rw [heq]
      exact lastTimestamp_concat _ s
    have hnp : shouldPersist (appendSnapshot h s) s2.timestamp = false := by
      unfold shouldPersist
      rw [hlast, decide_eq_false_iff_not]
      omega
    exact appendSnapshot_noPersist _ _ hnp
  · intro hp hgap
    obtain ⟨k, hk, heq, hlen⟩ := appendSnapshot_persist_eq h s hp
    have hlast : lastTimestamp (appendSnapshot h s) = s.timestamp := by
      rw [heq]
      exact lastTimestamp_concat _ s
    have hp2 : shouldPersist (appendSnapshot h s) s2.timestamp = true := by
      unfold shouldPersist
      rw [hlast, decide_eq_true_eq]
      omega
    obtain ⟨k2, hk2, heq2, hlen2⟩ := appendSnapshot_persist_eq (appendSnapshot h s) s2 hp2
    have hcap1 : (appendSnapshot h s).length ≤ 2000 := by
      rw [hlen]
      omega
    have hlen1 : (appendSnapshot h s).length = (h.drop k).length + 1 := by
      rw [heq]
      simp
    have hdlen : ((appendSnapshot h s).drop k2).length
        = (appendSnapshot h s).length - k2 := List.length_drop _ _
    have hlen2' : (appendSnapshot (appendSnapshot h s) s2).length
        = ((appendSnapshot h s).drop k2).length + 1 := by
      rw [heq2]
      simp
    have hk2' : k2 ≤ (h.drop k).length := by
      rw [hlen2] at hlen2'
      omega
    have hdrop : (appendSnapshot h s).drop k2 = (h.drop k).drop k2 ++ [s] := by
      rw [heq]
      exact List.drop_append_of_le_length hk2'
    constructor
    · rw [heq2, hdrop]
      simp
    · rw [heq2]
      simp

/-- Witness for C1: from an empty history, a first snapshot at 100 s is
persisted; a second one 20 s later is deduplicated, leaving the history
unchanged; one 61 s later is persisted alongside the first. -/
theorem append_dedup_witness :
    (60 * 1000 : Nat) < 100000
    ∧ appendSnapshot (appendSnapshot [] ⟨100000, []⟩) ⟨120000, []⟩
        = appendSnapshot ([] : List WaitTimeSnapshot) ⟨100000, []⟩
    ∧ (⟨100000, []⟩ : WaitTimeSnapshot)
        ∈ appendSnapshot (appendSnapshot [] ⟨100000, []⟩) ⟨161001, []⟩
    ∧ (⟨161001, []⟩ : WaitTimeSnapshot)
        ∈ appendSnapshot (appendSnapshot [] ⟨100000, []⟩) ⟨161001, []⟩ := by
  have h1 := append_dedup [] ⟨100000, []⟩ ⟨120000, []⟩ [] true true (by norm_num)
  have h2 := append_dedup [] ⟨100000, []⟩ ⟨161001, []⟩ [] true true (by norm_num)
  have hgap := h2.2.2.2.2 (by decide) (by norm_num)
  exact ⟨by norm_num, h1.2.2.2.1 (by decide) (by norm_num), hgap.1, hgap.2⟩

/-- Every sequence of appends keeps a history that started at or under
the cap at or under the cap. -/
theorem foldl_appendSnapshot_length_le (ss : List WaitTimeSnapshot) :
    ∀ h : List WaitTimeSnapshot, h.length ≤ 2000 →
      (ss.foldl appendSnapshot h).length ≤ 2000 := by
  induction ss with
  | nil => intro h hc; exact hc
  | cons s ss ih =>
    intro h hc
    rw [List.foldl_cons]
    exact ih _ (appendSnapshot_length_le h s hc)

/-- C2: starting from any history at or under the 2000-entry cap, no
append (single or in sequence) leaves more than 2000 entries, and a
persisted append retains a suffix of the appended history of length
`min (n + 1) 2000` — i.e. exactly the newest entries, evicting oldest
first. -/
theorem history_bounded (h : List WaitTimeSnapshot) (hcap : h.length ≤ 2000) :
    (∀ s, (appendSnapshot h s).length ≤ 2000)
    ∧ (∀ ss : List WaitTimeSnapshot, (ss.foldl appendSnapshot h).length ≤ 2000)
    ∧ (∀ s, shouldPersist h s.timestamp = true →
        appendSnapshot h s <:+ h ++ [s] ∧
          (appendSnapshot h s).length = min (h.length + 1) 2000) := by
  refine ⟨fun s => appendSnapshot_length_le h s hcap,
    fun ss => foldl_appendSnapshot_length_le ss h hcap, ?_⟩
  intro s hp
  obtain ⟨k, hk, heq, hlen⟩ := appendSnapshot_persist_eq h s hp
  refine ⟨?_, hlen⟩
  rw [heq]
  exact ⟨h.take k, by rw [← List.append_assoc, List.take_append_drop]⟩

/-- Witness for C2 starting from the empty history. -/
theorem history_bounded_witness :
    (List.length ([] : List WaitTimeSnapshot) ≤ 2000)
    ∧ (∀ ss : List WaitTimeSnapshot,
        (ss.foldl appendSnapshot []).length ≤ 2000) := by
  have h := history_bounded [] (by decide)
  exact ⟨by decide, h.2.1⟩

/-- C6: storage faults never fail the read path.  A failed or corrupt
store read produces the same caller-visible `{current, history}` result
as a cold start from an empty store; the fresh snapshot is always
returned as `current`, whatever the store flags; and a failed durable
write leaves the durable content untouched while the call still
completes with `current`. -/
theorem store_failures_swallowed (store : List WaitTimeSnapshot) (ro wo : Bool)
    (s : WaitTimeSnapshot) :
    (getWaitTimesStore store false wo s).1 = (getWaitTimesStore [] true wo s).1
    ∧ (getWaitTimesStore store ro wo s).1.current = s
    ∧ (getWaitTimesStore store ro false s).2 = store := by
  refine ⟨?_, ?_, ?_⟩
  · unfold getWaitTimesStore
    by_cases hq : shouldPersist [] s.timestamp = true
    · simp only [if_false, if_true, Bool.false_eq_true, hq]
    · simp only [if_false, if_true, Bool.false_eq_true, hq]
  · unfold getWaitTimesStore
    by_cases hq : shouldPersist (if ro then store else []) s.timestamp = true
    · simp only [hq, if_true]
    · simp only [hq, if_false, Bool.false_eq_true]
  · unfold getWaitTimesStore
    by_cases hq : shouldPersist (if ro then store else []) s.timestamp = true
    · simp only [hq, if_true, if_false, Bool.false_eq_true]
    · simp only [hq, if_false, Bool.false_eq_true]

/-- C7: the refresh cycle is all-parks-or-nothing.  If either park fetch
fails, `getWaitTimes` surfaces that error, the durable store is left
exactly as it was (no snapshot, partial or otherwise, is persisted), and
the HTTP route answers 500. -/
theorem fetch_all_or_nothing (e : String) (f2 : Except String ParkLiveData)
    (d1 : ParkLiveData) (store : List WaitTimeSnapshot) (ro wo : Bool) (t : Nat) :
    getWaitTimes (.error e) f2 store ro wo t = (.error e, store)
    ∧ getWaitTimes (.ok d1) (.error e) store ro wo t = (.error e, store)
    ∧ routeGET (.error e) = (500, none) := by
  refine ⟨?_, rfl, rfl⟩
  cases f2 <;> rfl

/-- C8 counterexample: the two `averageWaitTime` call sites disagree, so
"averageWait equals the rounded mean over exactly the OPERATING rides
with a defined standby wait" is not true of the current `Dashboard.tsx`
revision.  On [Alice (OPERATING, wait 10), Delta (OPERATING, no queue)]
it averages Delta in as 0 and yields 5, where the claimed mean is 10. -/
theorem averageWait_dash_counterexample :
    averageWaitTimeDash [alice, delta] = 5
    ∧ averageWaitSpec [alice, delta] = 10
    ∧ averageWaitTime [alice, delta] = 10 := by
  refine ⟨by decide, by decide, by decide⟩

/-- C8 (amended): the first-revision `averageWaitTime` equals the spec's
rounded mean over exactly the OPERATING rides with a defined standby
wait (0 when none), and on the [OPERATING/10, OPERATING/30, CLOSED]
scenario both revisions return 20; the current revision, however,
averages over all OPERATING rides, counting a missing standby wait as
0. -/
theorem averageWait_matches_spec (rides : List Ride) :
    averageWaitTime rides = averageWaitSpec rides
    ∧ averageWaitTime [alice, bob, charlie] = 20
    ∧ averageWaitTimeDash [alice, bob, charlie] = 20 := by
  refine ⟨?_, by decide, by decide⟩
  unfold averageWaitTime averageWaitSpec
  by_cases h0 : rides.length = 0
  · have hnil : rides = [] := List.length_eq_zero.mp h0
    subst hnil
    simp
  · rw [if_neg h0]

end ParkPulse
